import Mathlib

/-!
Verification of the talk-sync-world chat repository.

The repository's data layer is four Postgres tables (profiles, conversations,
conversation_participants, messages) guarded by row-level-security (RLS)
policies, built up by three migrations applied in timestamp order:

  1. the initial schema migration (src/unnamed/part_000): tables, RLS
     enablement, the first set of policies, the handle_new_user provisioning
     trigger, and updated_at triggers;
  2. 20250814195648_raspy_spark.sql: drops the recursive SELECT policies and
     recreates them on top of two SECURITY DEFINER helper functions;
  3. 20250814200318_graceful_king.sql: drops those policies again and
     recreates them as plain EXISTS subqueries.

This file embeds the FINAL state of the schema after all three migrations,
together with the client-side operations of the React components
(MessageInput.tsx, NewConversationDialog.tsx, MessagesList.tsx), and proves
or refutes the frozen claims about them.
-/

namespace TalkSync

/-- Principal identifiers as issued by the identity provider (auth.uid()). -/
abbrev UserId := Nat

/-- Conversation row identifiers. -/
abbrev ConvId := Nat

/-- Message row identifiers. -/
abbrev MsgId := Nat

/-- A row of public.profiles (src/unnamed/part_000 lines 2-11). -/
structure Profile where
  id : UserId
  username : String
  display_name : Option String
  avatar_url : Option String
  status : String
  deriving DecidableEq, Repr

/-- A row of public.conversations (src/unnamed/part_000 lines 14-21).
`ctype` embeds the `type` column ('dm' or 'group'); timestamps are
abstracted to naturals. -/
structure Conversation where
  id : ConvId
  name : Option String
  ctype : String
  created_by : Option UserId
  created_at : Nat
  updated_at : Nat
  deriving DecidableEq, Repr

/-- A row of public.conversation_participants (src/unnamed/part_000
lines 24-30). -/
structure ConversationParticipant where
  id : Nat
  conversation_id : ConvId
  user_id : UserId
  joined_at : Nat
  deriving DecidableEq, Repr

/-- A row of public.messages (src/unnamed/part_000 lines 33-42).
`mtype` embeds the `type` column ('text', 'image' or 'file'). -/
structure Message where
  id : MsgId
  conversation_id : ConvId
  sender_id : UserId
  content : String
  mtype : String
  created_at : Nat
  edited_at : Option Nat
  is_deleted : Bool
  deriving DecidableEq, Repr

/-- The entity store: the four tables, each as a list of rows in insertion
order. -/
structure DB where
  profiles : List Profile
  conversations : List Conversation
  conversation_participants : List ConversationParticipant
  messages : List Message
  deriving DecidableEq, Repr

/-! ## RLS policy expressions (final migration state)

Each definition below is the USING / WITH CHECK expression of one policy, as
a boolean predicate over the acting authenticated principal `P`
(= auth.uid()), the store, and the candidate row.  These are the policy
FORMULAS; the separate fuel-indexed evaluator further below models how the
engine evaluates a policy whose subquery re-enters a policed table. -/

/-- profiles SELECT: "Users can view all profiles", USING (true)
(src/unnamed/part_000 line 51). -/
def profilesSelectUsing (_P : UserId) (_db : DB) (_r : Profile) : Bool :=
  true

/-- conversations SELECT: "Users can view their conversations"
(20250814200318_graceful_king.sql lines 59-70): EXISTS a
conversation_participants row cp with cp.conversation_id = conversations.id
and cp.user_id = auth.uid(). -/
def conversationsSelectUsing (P : UserId) (db : DB) (r : Conversation) : Bool :=
  db.conversation_participants.any fun cp =>
    cp.conversation_id == r.id && cp.user_id == P

/-- conversations INSERT: "Users can create conversations", WITH CHECK
(auth.uid() = created_by) (src/unnamed/part_000 lines 62-63). -/
def conversationsInsertCheck (P : UserId) (_db : DB) (r : Conversation) : Bool :=
  r.created_by == some P

/-- conversation_participants SELECT: "Users can view participants of
conversations they join" (20250814200318_graceful_king.sql lines 27-38):
EXISTS a conversation_participants row cp with cp.conversation_id =
conversation_participants.conversation_id and cp.user_id = auth.uid(). -/
def cpSelectUsing (P : UserId) (db : DB) (r : ConversationParticipant) : Bool :=
  db.conversation_participants.any fun cp =>
    cp.conversation_id == r.conversation_id && cp.user_id == P

/-- conversation_participants INSERT: "Users can join conversations or add
others to their own conversations" (20250814200318_graceful_king.sql lines
41-56): user_id = auth.uid() OR EXISTS a conversations row c with c.id =
conversation_id and c.created_by = auth.uid(). -/
def cpInsertCheck (P : UserId) (db : DB) (r : ConversationParticipant) : Bool :=
  r.user_id == P ||
    db.conversations.any fun c =>
      c.id == r.conversation_id && c.created_by == some P

/-- messages SELECT: "Users can view messages in their conversations"
(20250814200318_graceful_king.sql lines 73-84). -/
def messagesSelectUsing (P : UserId) (db : DB) (r : Message) : Bool :=
  db.conversation_participants.any fun cp =>
    cp.conversation_id == r.conversation_id && cp.user_id == P

/-- messages INSERT: "Users can send messages to conversations they
participate in" (20250814200318_graceful_king.sql lines 87-100):
sender_id = auth.uid() AND EXISTS a membership row for auth.uid() in the
message's conversation. -/
def messagesInsertCheck (P : UserId) (db : DB) (r : Message) : Bool :=
  r.sender_id == P &&
    db.conversation_participants.any fun cp =>
      cp.conversation_id == r.conversation_id && cp.user_id == P

/-- messages UPDATE: "Users can update their own messages", USING
(auth.uid() = sender_id) (src/unnamed/part_000 lines 94-95). -/
def messagesUpdateUsing (P : UserId) (_db : DB) (r : Message) : Bool :=
  r.sender_id == P

/-! ## Policy-filtered reads -/

/-- A profile read by principal `P`: rows passing the profiles SELECT
policy. -/
def readProfiles (P : UserId) (db : DB) : List Profile :=
  db.profiles.filter (profilesSelectUsing P db)

/-- A conversation read by principal `P`. -/
def readConversations (P : UserId) (db : DB) : List Conversation :=
  db.conversations.filter (conversationsSelectUsing P db)

/-- A participant read by principal `P`. -/
def readParticipants (P : UserId) (db : DB) : List ConversationParticipant :=
  db.conversation_participants.filter (cpSelectUsing P db)

/-- A message read by principal `P`. -/
def readMessages (P : UserId) (db : DB) : List Message :=
  db.messages.filter (messagesSelectUsing P db)

/-! ## Specification-side predicates -/

/-- `P` is currently a Participant of conversation `C`: some
conversation_participants row links them. -/
def isParticipant (P : UserId) (C : ConvId) (db : DB) : Prop :=
  ∃ cp ∈ db.conversation_participants, cp.conversation_id = C ∧ cp.user_id = P

/-- `P` is the creator of conversation `C`: some conversations row with id
`C` has created_by = `P`. -/
def isCreator (P : UserId) (C : ConvId) (db : DB) : Prop :=
  ∃ c ∈ db.conversations, c.id = C ∧ c.created_by = some P

instance (P : UserId) (C : ConvId) (db : DB) : Decidable (isParticipant P C db) := by
  unfold isParticipant; infer_instance

instance (P : UserId) (C : ConvId) (db : DB) : Decidable (isCreator P C db) := by
  unfold isCreator; infer_instance

/-! ## Claims C2-C5: the read/insert decision rules -/

/-- C2: for every principal `P` and row `r` of Conversation, Participant or
Message, the RLS-filtered read returns `r` iff `r` is in the store and `P`
is currently a Participant of `r`'s conversation (for a Conversation row,
of the row itself); Profile reads return every stored row unconditionally. -/
theorem read_returns_row_iff_membership (P : UserId) (db : DB)
    (c : Conversation) (cp : ConversationParticipant) (m : Message) (pr : Profile) :
    (c ∈ readConversations P db ↔ c ∈ db.conversations ∧ isParticipant P c.id db)
    ∧ (cp ∈ readParticipants P db ↔
        cp ∈ db.conversation_participants ∧ isParticipant P cp.conversation_id db)
    ∧ (m ∈ readMessages P db ↔ m ∈ db.messages ∧ isParticipant P m.conversation_id db)
    ∧ (pr ∈ readProfiles P db ↔ pr ∈ db.profiles) := by
  refine ⟨?_, ?_, ?_, ?_⟩ <;>
    simp [readConversations, readParticipants, readMessages, readProfiles,
      conversationsSelectUsing, cpSelectUsing, messagesSelectUsing, profilesSelectUsing,
      isParticipant, List.mem_filter, List.any_eq_true, and_comm]

/-- C3: inserting a Message row is allowed iff the row's sender_id is the
acting principal and that principal is a Participant of the row's
conversation; consequently an insert whose sender_id differs from the
acting principal is always denied. -/
theorem message_insert_iff_sender_and_membership (P : UserId) (db : DB) (m : Message) :
    (messagesInsertCheck P db m = true ↔
      m.sender_id = P ∧ isParticipant P m.conversation_id db)
    ∧ (m.sender_id ≠ P → messagesInsertCheck P db m = false) := by
  constructor
  · simp [messagesInsertCheck, isParticipant, List.any_eq_true]
  · intro hne
    simp [messagesInsertCheck, beq_iff_eq, hne]

/-- Witness for C3 at a concrete input: principal 1 is a participant of
conversation 0, yet inserting a message with sender_id 2 is denied. -/
theorem message_insert_iff_sender_and_membership_witness :
    messagesInsertCheck 1
      ⟨[], [⟨0, none, "dm", some 1, 0, 0⟩], [⟨0, 0, 1, 0⟩], []⟩
      ⟨0, 0, 2, "hi", "text", 0, none, false⟩ = false :=
  (message_insert_iff_sender_and_membership 1
      ⟨[], [⟨0, none, "dm", some 1, 0, 0⟩], [⟨0, 0, 1, 0⟩], []⟩
      ⟨0, 0, 2, "hi", "text", 0, none, false⟩).2 (by decide)

/-- C4: inserting a conversation_participants row is allowed iff the row's
user_id is the acting principal, or the acting principal is the creator of
the row's conversation. -/
theorem participant_insert_iff_self_or_creator
    (P : UserId) (db : DB) (r : ConversationParticipant) :
    cpInsertCheck P db r = true ↔
      r.user_id = P ∨ isCreator P r.conversation_id db := by
  simp [cpInsertCheck, isCreator, List.any_eq_true]

/-! ## Claim C5: self-insert is in fact always allowed -/

/-- A store with one conversation (id 0) created by principal 1, and no
participants at all. -/
def dbC5 : DB :=
  ⟨[], [⟨0, none, "dm", some 1, 0, 0⟩], [], []⟩

/-- Counterexample to C5 as stated: principal 2 is neither a Participant
nor the creator of conversation 0, yet inserting the participant row
(conversation 0, user 2) passes the WITH CHECK expression, because its
first disjunct `user_id = auth.uid()` holds unconditionally. -/
theorem participant_self_insert_allowed_counterexample :
    ¬ isParticipant 2 0 dbC5 ∧ ¬ isCreator 2 0 dbC5 ∧
      cpInsertCheck 2 dbC5 ⟨5, 0, 2, 0⟩ = true := by
  refine ⟨by decide, by decide, by decide⟩

/-- C5 amended: if `P` is not a Participant of conversation `C` and not its
creator, inserting a participant row for `C` with user_id = `P` is still
ALLOWED: the policy's first disjunct permits any authenticated principal to
add themselves to any conversation. -/
theorem participant_self_insert_always_allowed
    (P : UserId) (C : ConvId) (db : DB) (r : ConversationParticipant)
    (_hp : ¬ isParticipant P C db) (_hc : ¬ isCreator P C db)
    (_hrC : r.conversation_id = C) (hru : r.user_id = P) :
    cpInsertCheck P db r = true := by
  simp [cpInsertCheck, hru]

/-- Witness for the amended C5 at the concrete counterexample input. -/
theorem participant_self_insert_always_allowed_witness :
    cpInsertCheck 2 dbC5 ⟨5, 0, 2, 0⟩ = true :=
  participant_self_insert_always_allowed 2 0 dbC5 ⟨5, 0, 2, 0⟩
    (by decide) (by decide) rfl rfl

/-! ## Claim C1: evaluation of the final participants SELECT policy

In Postgres, a subquery appearing inside a policy's USING expression is
itself subject to the row-level-security policies of the table it scans
(the querying role is `authenticated`, not the table owner, and the final
policies do not use the SECURITY DEFINER helpers of
20250814195648_raspy_spark.sql: graceful_king drops every policy that
referenced `get_user_conversation_ids` / `get_created_conversation_ids`
and recreates them as plain subqueries).  The final SELECT policy on
conversation_participants (graceful_king lines 27-38) scans
conversation_participants itself, so deciding visibility of one row
requires first deciding visibility of every row of the same table under
the same policy.  `rlsPartEval` models this re-entrant evaluation with a
recursion-depth budget: `none` means the budget is exhausted without a
decision (the engine's "infinite recursion detected in policy" failure),
`some b` a completed decision. -/
def rlsPartEval (P : UserId) (rows : List ConversationParticipant) :
    Nat → ConversationParticipant → Option Bool
  | 0, _ => none
  | fuel + 1, r =>
    match rows.mapM (fun cp => rlsPartEval P rows fuel cp) with
    | none => none
    | some vis =>
      some ((rows.zip vis).any fun p =>
        p.2 && p.1.conversation_id == r.conversation_id && p.1.user_id == P)

/-- The single membership row of the C1 failing input: principal 100 is a
participant of conversation 0. -/
def rowC1 : ConversationParticipant := ⟨0, 0, 100, 0⟩

/-- C1 fails on the code: with even a single conversation_participants row
present, evaluating the final participants SELECT policy for its own
member re-enters the same policy on the same row set, so no recursion
budget suffices to produce a decision — the privileged
(SECURITY DEFINER) lookup of the earlier migration is no longer used by
any policy, and the policy decision does not terminate. -/
theorem participant_select_policy_reentrant_no_decision :
    ∀ fuel : Nat, rlsPartEval 100 [rowC1] fuel rowC1 = none := by
  intro fuel
  induction fuel with
  | zero => rfl
  | succ n ih =>
    simp only [rlsPartEval, List.mapM_cons, List.mapM_nil, ih]
    rfl

/-! ## Claim C7: the updated_at bump on send

RLS is enabled on public.conversations (src/unnamed/part_000 line 46) and
no migration creates any UPDATE policy on conversations (part_000 creates
only SELECT and INSERT policies for it; the two later migrations only
replace SELECT policies).  Postgres applies a default-deny qualification
to a command with no policy, so no conversations row is updatable by the
authenticated role. -/
def conversationsUpdateUsing (_P : UserId) (_db : DB) (_r : Conversation) : Bool :=
  false

/-- The client-side bump of conversations.updated_at issued after a
successful send (MessageInput.tsx lines 45-49), filtered by the (empty)
UPDATE policy set on conversations: only qualifying rows are updated. -/
def updateConversationTimestamp (P : UserId) (cid : ConvId) (t : Nat) (db : DB) : DB :=
  { db with conversations := db.conversations.map fun c =>
      if conversationsUpdateUsing P db c && c.id == cid then
        { c with updated_at := t }
      else c }

/-- Server-side insert of one messages row, gated by the messages INSERT
policy; the boolean reports success.  A denied write changes nothing. -/
def insertMessageRow (P : UserId) (m : Message) (db : DB) : DB × Bool :=
  if messagesInsertCheck P db m then
    ({ db with messages := db.messages ++ [m] }, true)
  else (db, false)

/-- JavaScript String.prototype.trim: drop whitespace from both ends. -/
def jsTrim (s : String) : String :=
  ⟨((s.toList.dropWhile Char.isWhitespace).reverse.dropWhile
      Char.isWhitespace).reverse⟩

/-- The column values the client supplies in the messages insert
(MessageInput.tsx lines 26-33); id and created_at are server defaults. -/
structure MessageInsertValues where
  content : String
  conversation_id : ConvId
  sender_id : UserId
  mtype : String
  deriving DecidableEq, Repr

/-- The guard and insert payload of sendMessage (MessageInput.tsx lines
19-33): no request is issued when the trimmed text is empty, no user is
authenticated, or a send is already in flight; otherwise the payload
carries the trimmed content, the acting user's id and type 'text'. -/
def sendMessageRequest (message : String) (user : Option UserId) (sending : Bool)
    (conversationId : ConvId) : Option MessageInsertValues :=
  if jsTrim message == "" || user.isNone || sending then none
  else user.map fun uid => ⟨jsTrim message, conversationId, uid, "text"⟩

/-- The full send flow of MessageInput.tsx: issue the insert; on success
the client bumps the conversation's updated_at to the send time (an
RLS-filtered update).  The boolean reports whether the send succeeded. -/
def sendMessage (message : String) (user : Option UserId) (sending : Bool)
    (conversationId : ConvId) (newId : MsgId) (now : Nat) (db : DB) : DB × Bool :=
  match sendMessageRequest message user sending conversationId with
  | none => (db, false)
  | some v =>
    let row : Message :=
      ⟨newId, v.conversation_id, v.sender_id, v.content, v.mtype, now, none, false⟩
    match insertMessageRow v.sender_id row db with
    | (db1, true) => (updateConversationTimestamp v.sender_id conversationId now db1, true)
    | (_, false) => (db, false)

/-- The C7 failing input: conversation 0 (updated_at = 0) with principal
100 as its sole participant and no messages. -/
def dbC7 : DB :=
  ⟨[], [⟨0, none, "dm", some 100, 0, 0⟩], [⟨0, 0, 100, 0⟩], []⟩

/-- C7 fails on the code: the client does issue the updated_at bump, but no
migration defines an UPDATE policy on conversations, so the RLS-filtered
update matches no row and is a silent no-op (and no database trigger fires
on a messages insert either: the insert leaves conversations untouched).
Concretely, principal 100 sends "hi" at time 5 into conversation 0;
the send succeeds and the message row is persisted, yet the conversation's
updated_at remains 0. -/
theorem conversation_updated_at_not_bumped :
    (∀ (P : UserId) (cid : ConvId) (t : Nat) (db : DB),
      updateConversationTimestamp P cid t db = db)
    ∧ (∀ (P : UserId) (m : Message) (db : DB),
      ((insertMessageRow P m db).1).conversations = db.conversations)
    ∧ (sendMessage "hi" (some 100) false 0 7 5 dbC7).2 = true
    ∧ ((sendMessage "hi" (some 100) false 0 7 5 dbC7).1).messages =
        [⟨7, 0, 100, "hi", "text", 5, none, false⟩]
    ∧ ((sendMessage "hi" (some 100) false 0 7 5 dbC7).1).conversations.map
        Conversation.updated_at = [0] := by
  refine ⟨?_, ?_, by decide, by decide, by decide⟩
  · intro P cid t db
    simp [updateConversationTimestamp, conversationsUpdateUsing]
  · intro P m db
    unfold insertMessageRow
    split <;> rfl

/-! ## Claim C10: client guards on the send request -/

/-- The first element a dropWhile keeps fails the predicate. -/
theorem dropWhile_head_false {p : Char → Bool} :
    ∀ {l : List Char} {a : Char} {t : List Char},
      List.dropWhile p l = a :: t → p a = false := by
  intro l
  induction l with
  | nil => intro a t h; simp at h
  | cons c rest ih =>
    intro a t h
    rw [List.dropWhile_cons] at h
    by_cases hc : p c = true
    · rw [if_pos hc] at h; exact ih h
    · rw [if_neg hc] at h
      cases h
      simpa using hc

/-- A nonempty trim result contains a non-whitespace character. -/
theorem jsTrim_has_non_whitespace {s : String} (h : jsTrim s ≠ "") :
    ∃ ch ∈ (jsTrim s).toList, ch.isWhitespace = false := by
  unfold jsTrim at h ⊢
  rcases hd : List.dropWhile Char.isWhitespace
      ((s.toList.dropWhile Char.isWhitespace).reverse) with _ | ⟨a, t⟩
  · rw [hd] at h
    exact absurd rfl h
  · refine ⟨a, ?_, dropWhile_head_false hd⟩
    simp [String.toList, hd]

/-- C10: sendMessage never issues an insert when the trimmed content is
empty or no principal is authenticated (or a send is in flight), and every
payload it does issue has content equal to the trimmed input (hence
nonempty and not whitespace-only), sender_id equal to the acting
principal, the target conversation, and type 'text'. -/
theorem send_message_guards_and_fields (message : String) (user : Option UserId)
    (sending : Bool) (cid : ConvId) (v : MessageInsertValues) :
    (jsTrim message = "" → sendMessageRequest message user sending cid = none)
    ∧ (user = none → sendMessageRequest message user sending cid = none)
    ∧ (sendMessageRequest message user sending cid = some v →
        v.content = jsTrim message ∧ v.content ≠ "" ∧
        (∃ ch ∈ v.content.toList, ch.isWhitespace = false) ∧
        user = some v.sender_id ∧ v.conversation_id = cid ∧ v.mtype = "text") := by
  refine ⟨?_, ?_, ?_⟩
  · intro h
    simp [sendMessageRequest, h]
  · intro h
    simp [sendMessageRequest, h]
  · intro h
    unfold sendMessageRequest at h
    by_cases hguard : (jsTrim message == "" || user.isNone || sending) = true
    · rw [if_pos hguard] at h; exact absurd h (by simp)
    · rw [if_neg hguard] at h
      simp only [Bool.or_eq_true, not_or] at hguard
      obtain ⟨⟨htrim, huser⟩, hsend⟩ := hguard
      rcases user with _ | uid
      · simp at huser
      · simp only [Option.map_some', Option.some.injEq] at h
        subst h
        have htrim' : jsTrim message ≠ "" := by simpa using htrim
        exact ⟨rfl, htrim', jsTrim_has_non_whitespace htrim', rfl, rfl, rfl⟩

/-- Witness for C10 at a concrete input: sending "  hi " as principal 7
into conversation 3 issues exactly the trimmed payload. -/
theorem send_message_guards_and_fields_witness :
    (⟨"hi", 3, 7, "text"⟩ : MessageInsertValues).content = jsTrim "  hi " ∧
    (⟨"hi", 3, 7, "text"⟩ : MessageInsertValues).content ≠ "" ∧
    (∃ ch ∈ (⟨"hi", 3, 7, "text"⟩ : MessageInsertValues).content.toList,
      ch.isWhitespace = false) ∧
    some 7 = some (⟨"hi", 3, 7, "text"⟩ : MessageInsertValues).sender_id ∧
    (⟨"hi", 3, 7, "text"⟩ : MessageInsertValues).conversation_id = 3 ∧
    (⟨"hi", 3, 7, "text"⟩ : MessageInsertValues).mtype = "text" :=
  (send_message_guards_and_fields "  hi " (some 7) false 3 ⟨"hi", 3, 7, "text"⟩).2.2
    (by decide)

/-! ## Claim C8: soft delete and the message list -/

/-- fetchMessages from MessagesList.tsx lines 31-52: the RLS-filtered
messages of one conversation with is_deleted = false, ordered by
created_at ascending. -/
def fetchMessages (P : UserId) (cid : ConvId) (db : DB) : List Message :=
  ((db.messages.filter (messagesSelectUsing P db)).filter
      (fun m => m.conversation_id == cid && m.is_deleted == false)).mergeSort
    (fun a b => a.created_at ≤ b.created_at)

/-- Modelled from the spec: no code under src/ performs the Message
soft-delete itself (the repository ships only the read side, which filters
on is_deleted); per the spec, deleted messages are never physically
removed, only flagged is_deleted = true, with every other column left
unchanged.  `softDeleteRow` is the per-row flag update. -/
def softDeleteRow (mid : MsgId) (m : Message) : Message :=
  if m.id == mid then { m with is_deleted := true } else m

/-- Soft-deleting message `mid`: flag its row, touch nothing else. -/
def softDeleteMessage (mid : MsgId) (db : DB) : DB :=
  { db with messages := db.messages.map (softDeleteRow mid) }

/-- Every column of a messages row except the soft-delete flag. -/
def msgSkeleton (m : Message) :
    MsgId × ConvId × UserId × String × String × Nat × Option Nat :=
  (m.id, m.conversation_id, m.sender_id, m.content, m.mtype, m.created_at, m.edited_at)

/-- Flagging one row twice equals flagging it once. -/
theorem softDeleteRow_idem (mid : MsgId) (m : Message) :
    softDeleteRow mid (softDeleteRow mid m) = softDeleteRow mid m := by
  cases m with
  | mk i c s ct t ca e d =>
    by_cases h : i = mid <;> simp [softDeleteRow, h]

/-- Flagging a row changes no column but the flag. -/
theorem msgSkeleton_softDeleteRow (mid : MsgId) (m : Message) :
    msgSkeleton (softDeleteRow mid m) = msgSkeleton m := by
  cases m with
  | mk i c s ct t ca e d =>
    by_cases h : i = mid <;> simp [softDeleteRow, msgSkeleton, h]

/-- After the flag update, the targeted row carries is_deleted = true. -/
theorem softDeleteRow_deleted (mid : MsgId) (m : Message)
    (h : (softDeleteRow mid m).id = mid) :
    (softDeleteRow mid m).is_deleted = true := by
  cases m with
  | mk i c s ct t ca e d =>
    by_cases hi : i = mid
    · simp [softDeleteRow, hi]
    · simp [softDeleteRow, hi] at h

/-- C8: soft-deleting a message is idempotent, alters no column other than
is_deleted (and leaves the flag true on the targeted row), and a message
row with is_deleted = true never appears in a fetched conversation message
list. -/
theorem soft_delete_idempotent_and_hidden (mid : MsgId) (db : DB)
    (P : UserId) (cid : ConvId) (m : Message) :
    softDeleteMessage mid (softDeleteMessage mid db) = softDeleteMessage mid db
    ∧ (softDeleteMessage mid db).messages.map msgSkeleton = db.messages.map msgSkeleton
    ∧ (m ∈ (softDeleteMessage mid db).messages → m.id = mid → m.is_deleted = true)
    ∧ (m.is_deleted = true → m ∉ fetchMessages P cid db) := by
  refine ⟨?_, ?_, ?_, ?_⟩
  · simp only [softDeleteMessage, List.map_map]
    exact congrArg _ (List.map_congr_left fun x _ => softDeleteRow_idem mid x)
  · simp only [softDeleteMessage, List.map_map]
    exact List.map_congr_left fun x _ => msgSkeleton_softDeleteRow mid x
  · intro hm hid
    simp only [softDeleteMessage, List.mem_map] at hm
    obtain ⟨m0, _, rfl⟩ := hm
    exact softDeleteRow_deleted mid m0 hid
  · intro hdel hmem
    simp only [fetchMessages, List.mem_mergeSort, List.mem_filter,
      Bool.and_eq_true, beq_iff_eq] at hmem
    have := hmem.2.2
    simp [hdel] at this

/-- The C8 witness store: one already soft-deleted message in conversation
0, whose sole participant is principal 100. -/
def dbC8 : DB :=
  ⟨[], [⟨0, none, "dm", some 100, 0, 0⟩], [⟨0, 0, 100, 0⟩],
    [⟨0, 0, 100, "hi", "text", 1, none, true⟩]⟩

/-- Witness for C8 at a concrete input: the soft-deleted message is absent
from the fetched message list of its conversation. -/
theorem soft_delete_idempotent_and_hidden_witness :
    (⟨0, 0, 100, "hi", "text", 1, none, true⟩ : Message) ∉ fetchMessages 100 0 dbC8 :=
  (soft_delete_idempotent_and_hidden 0 dbC8 100 0
      ⟨0, 0, 100, "hi", "text", 1, none, true⟩).2.2.2 rfl

/-! ## Claim C9: profile provisioning -/

/-- Write failures surfaced by the entity store. -/
inductive StoreError where
  | conflict
  | unauthorized
  deriving DecidableEq, Repr

/-- split_part(email, '@', 1): the text before the first '@' (the whole
string when no '@' occurs). -/
def localPart (email : String) : String :=
  ⟨email.toList.takeWhile (fun c => c ≠ '@')⟩

/-- A newly created auth.users row as seen by the provisioning trigger:
id, email, and the optional username / display_name of
raw_user_meta_data. -/
structure NewUser where
  id : UserId
  email : String
  meta_username : Option String
  meta_display_name : Option String
  deriving DecidableEq, Repr

/-- handle_new_user (src/unnamed/part_000 lines 98-112): the SECURITY
DEFINER trigger inserting one profiles row for the new principal, with
username and display_name defaulted via COALESCE from raw_user_meta_data
or split_part(email, '@', 1).  The insert is subject to the schema
constraints of profiles, PRIMARY KEY (id) and UNIQUE (username); a
violation surfaces as a conflict error.  RLS does not apply to the
definer-privileged insert. -/
def handle_new_user (u : NewUser) (db : DB) : Except StoreError DB :=
  let uname := u.meta_username.getD (localPart u.email)
  let dname := u.meta_display_name.getD (localPart u.email)
  if db.profiles.any (fun p => p.username == uname) then
    .error .conflict
  else if db.profiles.any (fun p => p.id == u.id) then
    .error .conflict
  else
    .ok { db with profiles := db.profiles ++ [⟨u.id, uname, some dname, none, "online"⟩] }

/-- C9: provisioning a new principal with email alice@example.com and no
requested username creates exactly one profiles row with the principal's
id, username "alice" and display_name "alice"; provisioning a second new
principal whose email has the same local part then fails with a conflict
(username uniqueness). -/
theorem provisioning_defaults_and_conflict (u1 u2 : NewUser) (db : DB)
    (h1mail : u1.email = "alice@example.com")
    (h1meta : u1.meta_username = none) (h1meta' : u1.meta_display_name = none)
    (h2local : localPart u2.email = "alice") (h2meta : u2.meta_username = none)
    (hfresh : ∀ p ∈ db.profiles, p.username ≠ "alice")
    (hid : ∀ p ∈ db.profiles, p.id ≠ u1.id) :
    handle_new_user u1 db =
      .ok { db with profiles :=
        db.profiles ++ [⟨u1.id, "alice", some "alice", none, "online"⟩] }
    ∧ ∀ db1, handle_new_user u1 db = .ok db1 →
        handle_new_user u2 db1 = .error .conflict := by
  have hl : localPart u1.email = "alice" := by rw [h1mail]; rfl
  have hA : (db.profiles.any fun p => p.username == "alice") = false := by
    simp only [List.any_eq_false]
    intro p hp
    simpa using hfresh p hp
  have hB : (db.profiles.any fun p => p.id == u1.id) = false := by
    simp only [List.any_eq_false]
    intro p hp
    simpa using hid p hp
  have hstep : handle_new_user u1 db =
      .ok { db with profiles :=
        db.profiles ++ [⟨u1.id, "alice", some "alice", none, "online"⟩] } := by
    unfold handle_new_user
    simp [h1meta, h1meta', hl, hA, hB]
  refine ⟨hstep, ?_⟩
  intro db1 h1
  rw [hstep] at h1
  injection h1 with h1
  subst h1
  unfold handle_new_user
  simp [h2meta, h2local, List.any_append]

/-- Witness for C9 at concrete inputs: principal 1 with email
alice@example.com is provisioned into the empty store, then principal 2
with email alice@other.org hits the username conflict. -/
theorem provisioning_defaults_and_conflict_witness :
    handle_new_user ⟨1, "alice@example.com", none, none⟩ ⟨[], [], [], []⟩ =
      .ok ⟨[⟨1, "alice", some "alice", none, "online"⟩], [], [], []⟩ ∧
    handle_new_user ⟨2, "alice@other.org", none, none⟩
      ⟨[⟨1, "alice", some "alice", none, "online"⟩], [], [], []⟩ = .error .conflict := by
  have T := provisioning_defaults_and_conflict
    ⟨1, "alice@example.com", none, none⟩ ⟨2, "alice@other.org", none, none⟩
    ⟨[], [], [], []⟩ rfl rfl rfl (by decide) rfl (by simp) (by simp)
  exact ⟨T.1, T.2 _ T.1⟩

/-! ## Claim C6: DM de-duplication (NewConversationDialog.tsx) -/

/-- One step of the JS reduce building conversationCounts
(NewConversationDialog.tsx lines 87-90): bump the count for `c`, adding a
first-occurrence entry at the end (object key insertion order). -/
def bumpCount (acc : List (ConvId × Nat)) (c : ConvId) : List (ConvId × Nat) :=
  if acc.any (fun p => p.1 == c) then
    acc.map (fun p => if p.1 == c then (p.1, p.2 + 1) else p)
  else
    acc ++ [(c, 1)]

/-- conversationCounts: group the fetched conversation_ids by value and
count, keys in first-occurrence order. -/
def countsByConv (l : List ConvId) : List (ConvId × Nat) :=
  l.foldl bumpCount []

/-- The dedup fetch (NewConversationDialog.tsx lines 80-83): the
conversation_id of every conversation_participants row whose user_id is
the acting user or the searched user — RLS-filtered by the participants
SELECT policy, so only rows of conversations the acting user belongs to
come back. -/
def fetchPairRows (P other : UserId) (db : DB) : List ConvId :=
  ((db.conversation_participants.filter (cpSelectUsing P db)).filter
      (fun r => r.user_id == P || r.user_id == other)).map
    (fun r => r.conversation_id)

/-- The existing-conversation lookup inside createConversation
(NewConversationDialog.tsx lines 79-102): with at least two fetched rows,
pick the first conversation_id (in key insertion order) whose group size
is exactly 2. -/
def dmLookup (P other : UserId) (db : DB) : Option ConvId :=
  let existingConv := fetchPairRows P other db
  if 2 ≤ existingConv.length then
    ((countsByConv existingConv).find? (fun p => p.2 == 2)).map (fun p => p.1)
  else none

/-- createConversation (NewConversationDialog.tsx lines 73-126): return
the existing conversation when the dedup lookup finds one; otherwise
insert a new dm conversation created by `P` followed by its two
participant rows.  (Both participant inserts pass the participants INSERT
policy: the first is a self-insert and the second is issued by the new
conversation's creator.) -/
def createConversation (P other : UserId) (newConvId : ConvId)
    (pid1 pid2 : Nat) (now : Nat) (db : DB) : ConvId × DB :=
  match dmLookup P other db with
  | some cid => (cid, db)
  | none =>
    let conv : Conversation := ⟨newConvId, none, "dm", some P, now, now⟩
    (newConvId,
      { db with
          conversations := db.conversations ++ [conv],
          conversation_participants := db.conversation_participants ++
            [⟨pid1, newConvId, P, now⟩, ⟨pid2, newConvId, other, now⟩] })

/-- The C6 counterexample store: a group conversation 1 among principals
100, 200 and 300 created first, then a dm conversation 2 whose complete
participant set is exactly {100, 200}. -/
def dbC6 : DB :=
  ⟨[],
   [⟨1, some "team", "group", some 300, 0, 0⟩, ⟨2, none, "dm", some 100, 1, 1⟩],
   [⟨10, 1, 100, 0⟩, ⟨11, 1, 200, 0⟩, ⟨12, 1, 300, 0⟩, ⟨13, 2, 100, 1⟩, ⟨14, 2, 200, 1⟩],
   []⟩

/-- Counterexample to C6 as stated: conversation 2 is a dm whose complete
participant set is exactly {100, 200}, yet the dedup lookup run as 100
searching for 200 returns conversation 1 — the pre-existing group chat
that 100, 200 AND 300 share — because a fetched group of size exactly 2
does not mean "both principals and no one else participate": the fetch
already discarded the rows of other members, and the earlier
conversation's key comes first. -/
theorem dm_dedup_returns_group_counterexample :
    (∀ r ∈ dbC6.conversation_participants, r.conversation_id = 2 →
      r.user_id = 100 ∨ r.user_id = 200)
    ∧ (∃ r ∈ dbC6.conversation_participants, r.conversation_id = 2 ∧ r.user_id = 100)
    ∧ (∃ r ∈ dbC6.conversation_participants, r.conversation_id = 2 ∧ r.user_id = 200)
    ∧ (∃ c ∈ dbC6.conversations, c.id = 2 ∧ c.ctype = "dm")
    ∧ dmLookup 100 200 dbC6 = some 1
    ∧ (1 : ConvId) ≠ 2 := by
  refine ⟨by decide, by decide, by decide, by decide, by decide, by decide⟩

/-- The conversationCounts accumulator has an entry for key `c`. -/
def hasKey (acc : List (ConvId × Nat)) (c : ConvId) : Prop :=
  ∃ n, (c, n) ∈ acc

theorem hasKey_iff_exists (acc : List (ConvId × Nat)) (c : ConvId) :
    hasKey acc c ↔ ∃ q ∈ acc, q.1 = c := by
  constructor
  · rintro ⟨n, hn⟩
    exact ⟨(c, n), hn, rfl⟩
  · rintro ⟨q, hq, rfl⟩
    exact ⟨q.2, hq⟩

/-- The per-entry update inside bumpCount preserves the entry's key. -/
theorem bumpEntryKey (a : ConvId) (q : ConvId × Nat) :
    (if q.1 == a then (q.1, q.2 + 1) else q).1 = q.1 := by
  by_cases h : q.1 == a <;> simp [h]

/-- bumpCount adds exactly the key of the consumed value. -/
theorem bumpCount_hasKey (acc : List (ConvId × Nat)) (a c : ConvId) :
    hasKey (bumpCount acc a) c ↔ hasKey acc c ∨ c = a := by
  unfold bumpCount
  by_cases ha : (acc.any fun q => q.1 == a) = true
  · rw [if_pos ha]
    have hany : ∃ q ∈ acc, q.1 = a := by simpa using ha
    rw [hasKey_iff_exists, hasKey_iff_exists]
    constructor
    · rintro ⟨q', hq', hk⟩
      obtain ⟨q, hq, rfl⟩ := List.mem_map.mp hq'
      exact Or.inl ⟨q, hq, by rwa [bumpEntryKey] at hk⟩
    · intro h
      have hex : ∃ q ∈ acc, q.1 = c := by
        rcases h with h | rfl
        · exact h
        · exact hany
      obtain ⟨q, hq, hk⟩ := hex
      exact ⟨_, List.mem_map_of_mem _ hq, by rw [bumpEntryKey, hk]⟩
  · rw [if_neg ha]
    rw [hasKey_iff_exists, hasKey_iff_exists]
    constructor
    · rintro ⟨q, hq, rfl⟩
      rcases List.mem_append.mp hq with h | h
      · exact Or.inl ⟨q, h, rfl⟩
      · have : q = (a, 1) := by simpa using h
        rw [this]
        exact Or.inr rfl
    · rintro (⟨q, hq, rfl⟩ | hca)
      · exact ⟨q, List.mem_append_left _ hq, rfl⟩
      · exact ⟨(a, 1), List.mem_append_right _ (by simp), hca.symm⟩

/-- Fold invariant of the conversationCounts reduce: every entry counts
its key's occurrences in the consumed input, and the keys are exactly the
consumed values. -/
theorem countsByConv_invariant :
    ∀ (l : List ConvId) (acc : List (ConvId × Nat)) (pre : List ConvId),
      (∀ p ∈ acc, p.2 = pre.count p.1) →
      (∀ c : ConvId, c ∈ pre ↔ hasKey acc c) →
      (∀ p ∈ l.foldl bumpCount acc, p.2 = (pre ++ l).count p.1) ∧
        (∀ c : ConvId, c ∈ pre ++ l ↔ hasKey (l.foldl bumpCount acc) c) := by
  intro l
  induction l with
  | nil =>
    intro acc pre hval hmem
    constructor
    · intro p hp
      simpa using hval p hp
    · intro c
      simpa using hmem c
  | cons a t ih =>
    intro acc pre hval hmem
    have hstep1 : ∀ p ∈ bumpCount acc a, p.2 = (pre ++ [a]).count p.1 := by
      intro p hp
      unfold bumpCount at hp
      by_cases ha : (acc.any fun q => q.1 == a) = true
      · rw [if_pos ha] at hp
        obtain ⟨q, hq, rfl⟩ := List.mem_map.mp hp
        have hv := hval q hq
        by_cases hqa : q.1 = a
        · rw [hqa] at hv
          simp [hqa, List.count_append, hv]
        · simp [hqa, List.count_append, hv]
      · rw [if_neg ha] at hp
        have hnoa : ∀ q ∈ acc, ¬ q.1 = a := by
          intro q hq
          have := List.any_eq_false.mp (Bool.not_eq_true _ ▸ ha) q hq
          simpa using this
        have hanotpre : a ∉ pre := by
          intro hapre
          obtain ⟨n, hn⟩ := (hmem a).mp hapre
          exact hnoa (a, n) hn rfl
        rcases List.mem_append.mp hp with hp1 | hp1
        · have hpa : ¬ p.1 = a := hnoa p hp1
          simp [List.count_append, hval p hp1, hpa]
        · have hpe : p = (a, 1) := by simpa using hp1
          subst hpe
          simp [List.count_append, List.count_eq_zero.mpr hanotpre]
    have hstep2 : ∀ c : ConvId, c ∈ pre ++ [a] ↔ hasKey (bumpCount acc a) c := by
      intro c
      rw [bumpCount_hasKey, List.mem_append, List.mem_singleton, hmem c]
    have hmain := ih (bumpCount acc a) (pre ++ [a]) hstep1 hstep2
    constructor
    · intro p hp
      have := hmain.1 p (by simpa using hp)
      simpa [List.append_assoc] using this
    · intro c
      have := hmain.2 c
      simp only [List.append_assoc, List.singleton_append] at this
      simpa using this

/-- Every conversationCounts entry holds its key's multiplicity in the
fetched list. -/
theorem countsByConv_val {l : List ConvId} {p : ConvId × Nat}
    (hp : p ∈ countsByConv l) : p.2 = l.count p.1 := by
  have := (countsByConv_invariant l [] [] (by simp) (by simp [hasKey])).1 p hp
  simpa using this

/-- conversationCounts has an entry for exactly the fetched values. -/
theorem countsByConv_keys {l : List ConvId} {c : ConvId} :
    c ∈ l ↔ hasKey (countsByConv l) c := by
  have := (countsByConv_invariant l [] [] (by simp) (by simp [hasKey])).2 c
  simpa using this

/-- When exactly one conversation_id occurs twice among the fetched rows,
the dedup lookup returns it. -/
theorem dmLookup_unique_pair (P other : UserId) (db : DB) (cid : ConvId)
    (hcount2 : (fetchPairRows P other db).count cid = 2)
    (hothers : ∀ c : ConvId, c ≠ cid → (fetchPairRows P other db).count c ≠ 2) :
    dmLookup P other db = some cid := by
  unfold dmLookup
  have hmemc : cid ∈ fetchPairRows P other db :=
    List.count_pos_iff.mp (by omega)
  have hlen : 2 ≤ (fetchPairRows P other db).length :=
    hcount2 ▸ List.count_le_length cid (fetchPairRows P other db)
  rw [if_pos hlen]
  obtain ⟨n, hn⟩ := countsByConv_keys.mp hmemc
  have hv : n = 2 := by
    have := countsByConv_val hn
    simpa [hcount2] using this
  rcases hfind : (countsByConv (fetchPairRows P other db)).find?
      (fun p => p.2 == 2) with _ | q
  · exfalso
    have := List.find?_eq_none.mp hfind (cid, n) hn
    simp [hv] at this
  · have hq2 : q.2 = 2 := by
      have := List.find?_some hfind
      simpa using this
    have hqv := countsByConv_val (List.mem_of_find?_eq_some hfind)
    have hqc : q.1 = cid := by
      by_contra hne
      exact hothers q.1 hne (by rw [← hqv, hq2])
    rw [hfind]
    simp [hqc]

/-- The (conversation, user) pair of a participants row; the table's
UNIQUE(conversation_id, user_id) constraint says these pairs are nodup. -/
def participantKey (r : ConversationParticipant) : ConvId × UserId :=
  (r.conversation_id, r.user_id)

/-- The participants SELECT policy expression holds exactly when the
acting principal is a participant of the row's conversation. -/
theorem cpSelectUsing_iff (P : UserId) (db : DB) (r : ConversationParticipant) :
    cpSelectUsing P db r = true ↔ isParticipant P r.conversation_id db := by
  simp [cpSelectUsing, isParticipant, List.any_eq_true]

/-- Counting a value among mapped elements is a countP on the source. -/
theorem count_map_countP {α β : Type} [DecidableEq β] (f : α → β) (l : List α)
    (b : β) :
    (l.map f).count b = l.countP (fun x => f x == b) := by
  induction l with
  | nil => simp
  | cons x t ih =>
    by_cases h : f x = b
    · simp [List.count_cons, List.countP_cons, ih, h]
    · have h' : ¬ b = f x := fun hh => h hh.symm
      simp [List.count_cons, List.countP_cons, ih, h, h']

/-- The multiplicity of a conversation_id among the dedup-fetched rows,
expressed over the raw participants table. -/
theorem fetchPairRows_count (A B : UserId) (db : DB) (c : ConvId) :
    (fetchPairRows A B db).count c =
      db.conversation_participants.countP
        (fun r => ((r.conversation_id == c) && (r.user_id == A || r.user_id == B))
          && cpSelectUsing A db r) := by
  unfold fetchPairRows
  rw [count_map_countP, List.countP_filter, List.countP_filter]

/-- A (conversation, user) pair occurs among the participant keys exactly
when that user is a participant of that conversation. -/
theorem participantKey_mem_iff (db : DB) (c : ConvId) (u : UserId) :
    (c, u) ∈ db.conversation_participants.map participantKey ↔
      isParticipant u c db := by
  simp only [List.mem_map, participantKey, Prod.mk.injEq, isParticipant]

/-- Multiplicity of one participant key, defined directly to stay
independent of any particular boolean-equality instance. -/
def keyCount (q : ConvId × UserId) : List (ConvId × UserId) → Nat
  | [] => 0
  | x :: t => (if x = q then 1 else 0) + keyCount q t

/-- keyCount vanishes exactly off the list. -/
theorem keyCount_eq_zero {q : ConvId × UserId} :
    ∀ {l : List (ConvId × UserId)}, keyCount q l = 0 ↔ q ∉ l := by
  intro l
  induction l with
  | nil => simp [keyCount]
  | cons x t ih =>
    by_cases hx : x = q
    · simp [keyCount, hx]
    · have hqx : ¬ q = x := fun h => hx h.symm
      simp [keyCount, hx, ih, hqx]

/-- keyCount is positive exactly on members. -/
theorem keyCount_pos {q : ConvId × UserId} {l : List (ConvId × UserId)} :
    0 < keyCount q l ↔ q ∈ l := by
  constructor
  · intro h
    by_contra hq
    rw [keyCount_eq_zero.mpr hq] at h
    exact Nat.lt_irrefl 0 h
  · intro h
    by_contra hpos
    have h0 : keyCount q l = 0 := by omega
    exact keyCount_eq_zero.mp h0 h

/-- On a duplicate-free list every keyCount is at most one — this is the
content of the UNIQUE(conversation_id, user_id) constraint. -/
theorem keyCount_le_one_of_nodup {l : List (ConvId × UserId)} (h : l.Nodup)
    (q : ConvId × UserId) : keyCount q l ≤ 1 := by
  induction l with
  | nil => simp [keyCount]
  | cons x t ih =>
    rw [List.nodup_cons] at h
    by_cases hx : x = q
    · have h0 : keyCount q t = 0 := keyCount_eq_zero.mpr (hx ▸ h.1)
      simp [keyCount, hx, h0]
    · simp only [keyCount, if_neg hx, Nat.zero_add]
      exact ih h.2

/-- A countP over the two-key disjunction splits into the two key
multiplicities. -/
theorem countP_pair_split (A B : UserId) (hAB : A ≠ B) (c : ConvId)
    (l : List ConversationParticipant) :
    l.countP (fun r => participantKey r == (c, A) || participantKey r == (c, B)) =
      keyCount (c, A) (l.map participantKey) +
        keyCount (c, B) (l.map participantKey) := by
  induction l with
  | nil => simp [keyCount]
  | cons x t ih =>
    simp only [List.countP_cons, List.map_cons, keyCount]
    rw [ih]
    have hBA : ¬ B = A := fun h => hAB h.symm
    by_cases hxa : participantKey x = (c, A)
    · have hxb : ¬ participantKey x = (c, B) := by
        rw [hxa]
        intro h
        exact hAB (congrArg Prod.snd h)
      simp [hxa, hxb, hAB]
      omega
    · by_cases hxb : participantKey x = (c, B)
      · simp [hxa, hxb, hBA]
        omega
      · simp [hxa, hxb]

/-- C6 amended: if the store holds a dm conversation `cid` whose complete
participant set is exactly {A, B} and no OTHER conversation has
participant rows for both A and B, then the dedup lookup run as A
searching for B returns `cid`, and running createConversation again
returns `cid` with the store unchanged — no duplicate conversation is
created.  (The counterexample shows the no-other-conversation premise is
necessary: an earlier group conversation shared by both principals is
returned instead.) -/
theorem dm_dedup_roundtrip_unique_pair (A B : UserId) (db : DB) (cid : ConvId)
    (newConvId : ConvId) (pid1 pid2 now : Nat)
    (hAB : A ≠ B)
    (hnodup : (db.conversation_participants.map participantKey).Nodup)
    (hA : isParticipant A cid db) (hB : isParticipant B cid db)
    (_hdm : ∃ cv ∈ db.conversations, cv.id = cid ∧ cv.ctype = "dm")
    (_hexact : ∀ r ∈ db.conversation_participants, r.conversation_id = cid →
      r.user_id = A ∨ r.user_id = B)
    (honly : ∀ c : ConvId, c ≠ cid →
      ¬(isParticipant A c db ∧ isParticipant B c db)) :
    dmLookup A B db = some cid ∧
      createConversation A B newConvId pid1 pid2 now db = (cid, db) := by
  have hle1 : ∀ q : ConvId × UserId,
      keyCount q (db.conversation_participants.map participantKey) ≤ 1 :=
    fun q => keyCount_le_one_of_nodup hnodup q
  have hfetchcid : (fetchPairRows A B db).count cid = 2 := by
    rw [fetchPairRows_count]
    have hcongr : db.conversation_participants.countP
        (fun r => ((r.conversation_id == cid) && (r.user_id == A || r.user_id == B))
          && cpSelectUsing A db r) =
        db.conversation_participants.countP
          (fun r => participantKey r == (cid, A) || participantKey r == (cid, B)) := by
      apply List.countP_congr
      intro r _
      simp only [Bool.and_eq_true, Bool.or_eq_true, beq_iff_eq, participantKey,
        Prod.mk.injEq]
      constructor
      · rintro ⟨⟨hc, hu | hu⟩, -⟩
        · exact Or.inl ⟨hc, hu⟩
        · exact Or.inr ⟨hc, hu⟩
      · rintro (⟨hc, hu⟩ | ⟨hc, hu⟩) <;>
          · refine ⟨⟨hc, by simp [hu]⟩, ?_⟩
            rw [cpSelectUsing_iff, hc]
            exact hA
    rw [hcongr, countP_pair_split A B hAB cid]
    have hmA : (cid, A) ∈ db.conversation_participants.map participantKey :=
      (participantKey_mem_iff db cid A).mpr hA
    have hmB : (cid, B) ∈ db.conversation_participants.map participantKey :=
      (participantKey_mem_iff db cid B).mpr hB
    have hposA := keyCount_pos.mpr hmA
    have hposB := keyCount_pos.mpr hmB
    have hlA := hle1 (cid, A)
    have hlB := hle1 (cid, B)
    omega
  have hfetchother : ∀ c : ConvId, c ≠ cid →
      (fetchPairRows A B db).count c ≠ 2 := by
    intro c hc
    have hle : (fetchPairRows A B db).count c ≤
        keyCount (c, A) (db.conversation_participants.map participantKey) +
          keyCount (c, B) (db.conversation_participants.map participantKey) := by
      rw [fetchPairRows_count, ← countP_pair_split A B hAB c]
      apply List.countP_mono_left
      intro r _
      simp only [Bool.and_eq_true, Bool.or_eq_true, beq_iff_eq, participantKey,
        Prod.mk.injEq]
      rintro ⟨⟨hcc, hu | hu⟩, -⟩
      · exact Or.inl ⟨hcc, hu⟩
      · exact Or.inr ⟨hcc, hu⟩
    have hnotboth :
        ¬(keyCount (c, A) (db.conversation_participants.map participantKey) = 1
          ∧ keyCount (c, B) (db.conversation_participants.map participantKey) = 1) := by
      rintro ⟨h1, h2⟩
      have mA : isParticipant A c db :=
        (participantKey_mem_iff db c A).mp (keyCount_pos.mp (by omega))
      have mB : isParticipant B c db :=
        (participantKey_mem_iff db c B).mp (keyCount_pos.mp (by omega))
      exact honly c hc ⟨mA, mB⟩
    have hlA := hle1 (c, A)
    have hlB := hle1 (c, B)
    omega
  have hlook := dmLookup_unique_pair A B db cid hfetchcid hfetchother
  refine ⟨hlook, ?_⟩
  unfold createConversation
  rw [hlook]

/-- The C6 witness store: a single dm conversation 0 whose participants
are exactly principals 100 and 200. -/
def dbC6w : DB :=
  ⟨[], [⟨0, none, "dm", some 100, 0, 0⟩], [⟨0, 0, 100, 0⟩, ⟨1, 0, 200, 0⟩], []⟩

/-- Witness for the amended C6 at a concrete input: in a store with only
the dm {100, 200}, the dedup lookup returns it and createConversation
changes nothing. -/
theorem dm_dedup_roundtrip_unique_pair_witness :
    dmLookup 100 200 dbC6w = some 0 ∧
      createConversation 100 200 9 8 7 6 dbC6w = (0, dbC6w) :=
  dm_dedup_roundtrip_unique_pair 100 200 dbC6w 0 9 8 7 6
    (by decide) (by decide) (by decide) (by decide) (by decide) (by decide)
    (by
      intro c hc h
      obtain ⟨⟨r, hr, hrc, _⟩, _⟩ := h
      simp only [dbC6w, List.mem_cons, List.not_mem_nil, or_false] at hr
      rcases hr with rfl | rfl
      · exact hc hrc.symm
      · exact hc hrc.symm)

end TalkSync
